import Mathlib

/-!
Verification of the primal-module core of the fusion-blossom MWPM solver:
the blossom expansion engine (`expand_blossom`, `expand_peer_matching`,
`get_perfect_matching`), the legacy result extraction
(`legacy_get_mwpm_result`), and the parallel orchestrator placeholders.

The node forest is modelled as an arena of nodes addressed by stable
integer indices: a `DualNodePtr` (shared pointer) and a `DualNodeWeak`
(weak back reference) both become the `Nat` index of the node they point
to, and dereferencing becomes lookup in the arena.  Panics become values
of an explicit error type, and the unbounded `while` loop together with
the mutual recursion between `expand_blossom` and `expand_peer_matching`
is driven by an explicit fuel parameter that decreases at every recursion
level; exhausting the fuel is reported as a distinguished error, so that
divergence of the original code corresponds to exhaustion at every fuel.
-/

namespace FusionBlossom

/-- Model of `VertexIndex` in the source (`usize`), modelled as `Nat`. -/
abbrev VertexIndex := Nat

/-- Identifier of a dual node: the arena index standing for a
`DualNodePtr`/`DualNodeWeak` of the source. -/
abbrev NodeIndex := Nat

/-- Modelled from the spec: the class of a dual node (`DualNodeClass` of
`dual_module.rs`, a file not among the sampled sources).  Its shape is fixed
by section 3 of the spec and by the pattern matches in `primal_module.rs`:
either a single syndrome vertex carrying its `syndrome_index`, or a blossom
carrying `nodes_circle` (back references to its children, an odd cycle) and
`touching_children` (for each circle position the pair
`(left_touch, right_touch)`). -/
inductive DualNodeClass where
  | syndromeVertex (syndrome_index : Nat)
  | blossom (nodes_circle : List NodeIndex) (touching_children : List (NodeIndex × NodeIndex))
  deriving DecidableEq

/-- Modelled from the spec: a dual node (`DualNode` of `dual_module.rs`),
with its stable `index`, its class, and the optional back reference
`parent_blossom` to the blossom directly containing it. -/
structure DualNode where
  index : NodeIndex
  nodeClass : DualNodeClass
  parent_blossom : Option NodeIndex
  deriving DecidableEq

/-- The node forest: the arena owning all dual nodes. -/
abbrev Forest := List DualNode

/-- Dereference a node id, i.e. upgrade/read a pointer into the arena. -/
def lookupNode (f : Forest) (i : NodeIndex) : Option DualNode :=
  f.find? (fun n => n.index == i)

/-- The abnormal outcomes reachable from the blossom expansion engine.
`outOfFuel` is the fuel-model artifact standing for non-termination;
`danglingPointer` stands for a failing `upgrade_force` or out-of-bounds
index (a dead reference); the remaining constructors stand for the explicit
panics of `expand_blossom`: `shouldFindChild` for the constant-message
`expect("should find child")`, `cannotFindParent idx` for
`panic!("cannot find parent of {}", idx)` which reports the index of the
offending child, and `invalidBlossom` for the parity assertion
`debug_assert!(... , "must be a valid blossom")`. -/
inductive ExpandErr where
  | outOfFuel
  | danglingPointer
  | shouldFindChild
  | cannotFindParent (index : NodeIndex)
  | invalidBlossom
  deriving DecidableEq

/-- Model of `IntermediateMatching`: matching possibly in terms of blossom nodes.
Each entry of `peer_matchings` is `((node_1, touching_1), (node_2, touching_2))`;
each entry of `virtual_matchings` is `((node, touching), virtual_vertex)`. -/
structure IntermediateMatching where
  peer_matchings : List ((NodeIndex × NodeIndex) × (NodeIndex × NodeIndex))
  virtual_matchings : List ((NodeIndex × NodeIndex) × VertexIndex)
  deriving DecidableEq

/-- Model of `PerfectMatching`: matching purely over syndrome nodes. -/
structure PerfectMatching where
  peer_matchings : List (NodeIndex × NodeIndex)
  virtual_matchings : List (NodeIndex × VertexIndex)
  deriving DecidableEq

/-- Source constructor `IntermediateMatching::new`. -/
def IntermediateMatching.new : IntermediateMatching := ⟨[], []⟩

/-- Source constructor `PerfectMatching::new`. -/
def PerfectMatching.new : PerfectMatching := ⟨[], []⟩

/-- Body of `expand_peer_matching`, abstracted over the recursive call to
`expand_blossom` (`eb`): expand both sides, then append the single pair
`(touching_ptr_1, touching_ptr_2)`. -/
def expandPeerMatchingWith (eb : NodeIndex → NodeIndex → Except ExpandErr (List (NodeIndex × NodeIndex)))
    (dual_node_ptr_1 touching_ptr_1 dual_node_ptr_2 touching_ptr_2 : NodeIndex) :
    Except ExpandErr (List (NodeIndex × NodeIndex)) :=
  match eb dual_node_ptr_1 touching_ptr_1 with
  | .error e => .error e
  | .ok l1 =>
    match eb dual_node_ptr_2 touching_ptr_2 with
    | .error e => .error e
    | .ok l2 => .ok (l1 ++ l2 ++ [(touching_ptr_1, touching_ptr_2)])

/-- The pairing loop inside one level of `expand_blossom`, abstracted over
the recursive call to `expand_peer_matching` (`ep`).  The source loop is
`for i in (0..(len-1)).step_by(2))`, which performs exactly `len / 2`
iterations (`= (len-1)/2` for the odd `len` of a valid blossom); `steps`
counts the remaining iterations and `i` is the loop variable.  Iteration
`i` pairs circle position `idx_1 = (idx+i+1) % len` with position
`idx_2 = (idx+i+2) % len`, passing the right touch of `idx_1` and the left
touch of `idx_2` to `expand_peer_matching`. -/
def pairStepsWith (ep : NodeIndex → NodeIndex → NodeIndex → NodeIndex → Except ExpandErr (List (NodeIndex × NodeIndex)))
    (nodes_circle : List NodeIndex) (touching_children : List (NodeIndex × NodeIndex))
    (idx : Nat) : Nat → Nat → Except ExpandErr (List (NodeIndex × NodeIndex))
  | 0, _ => .ok []
  | steps + 1, i =>
    let len := nodes_circle.length
    let idx_1 := (idx + i + 1) % len
    let idx_2 := (idx + i + 2) % len
    match nodes_circle.get? idx_1, nodes_circle.get? idx_2,
          touching_children.get? idx_1, touching_children.get? idx_2 with
    | some dual_node_ptr_1, some dual_node_ptr_2, some touching_1, some touching_2 =>
      match ep dual_node_ptr_1 touching_1.2 dual_node_ptr_2 touching_2.1 with
      | .error e => .error e
      | .ok l =>
        match pairStepsWith ep nodes_circle touching_children idx steps (i + 2) with
        | .error e => .error e
        | .ok r => .ok (l ++ r)
    | _, _, _, _ => .error .danglingPointer

/-- One iteration of the `while &child_ptr != blossom_ptr` walk of
`expand_blossom`, abstracted over the recursion at the next fuel level
(`eb`, standing both for the continued walk and for the
`expand_blossom` calls made through `expand_peer_matching`):
read the current child, find its parent blossom, locate the child in the
parent's circle, check the parity assertion, run the pairing loop, and
continue the walk from the parent. -/
def expandStep (f : Forest) (eb : NodeIndex → NodeIndex → Except ExpandErr (List (NodeIndex × NodeIndex)))
    (blossom_ptr current : NodeIndex) : Except ExpandErr (List (NodeIndex × NodeIndex)) :=
  match lookupNode f current with
  | none => .error .danglingPointer
  | some child =>
    match child.parent_blossom with
    | none => .error (.cannotFindParent child.index)
    | some p =>
      match lookupNode f p with
      | none => .error .danglingPointer
      | some parent_blossom =>
        match parent_blossom.nodeClass with
        | .syndromeVertex _ => eb blossom_ptr p
        | .blossom nodes_circle touching_children =>
          match List.findIdx? (fun ptr => ptr == current) nodes_circle with
          | none => .error .shouldFindChild
          | some idx =>
            if nodes_circle.length % 2 = 1 ∧ 3 ≤ nodes_circle.length then
              match pairStepsWith (expandPeerMatchingWith eb) nodes_circle touching_children
                      idx (nodes_circle.length / 2) 0 with
              | .error e => .error e
              | .ok pairs =>
                match eb blossom_ptr p with
                | .error e => .error e
                | .ok rest => .ok (pairs ++ rest)
            else .error .invalidBlossom

/-- The fuel-indexed walk of `expand_blossom`: `expandGo f fuel blossom current`
runs the `while &child_ptr != blossom_ptr` loop starting at `current`,
spending one unit of fuel per recursion level. -/
def expandGo (f : Forest) : Nat → NodeIndex → NodeIndex → Except ExpandErr (List (NodeIndex × NodeIndex))
  | 0, blossom_ptr, current =>
    if current = blossom_ptr then .ok [] else .error .outOfFuel
  | fuel + 1, blossom_ptr, current =>
    if current = blossom_ptr then .ok [] else expandStep f (expandGo f fuel) blossom_ptr current

/-- Source function `IntermediateMatching::expand_blossom(blossom_ptr, touching_ptr)`. -/
def expand_blossom (f : Forest) (fuel : Nat) (blossom_ptr touching_ptr : NodeIndex) :
    Except ExpandErr (List (NodeIndex × NodeIndex)) :=
  expandGo f fuel blossom_ptr touching_ptr

/-- Source function `IntermediateMatching::expand_peer_matching(node_1, touching_1, node_2, touching_2)`. -/
def expand_peer_matching (f : Forest) (fuel : Nat)
    (dual_node_ptr_1 touching_ptr_1 dual_node_ptr_2 touching_ptr_2 : NodeIndex) :
    Except ExpandErr (List (NodeIndex × NodeIndex)) :=
  expandPeerMatchingWith (expandGo f fuel) dual_node_ptr_1 touching_ptr_1 dual_node_ptr_2 touching_ptr_2

/-- The pairing loop of `expand_blossom` at one blossom level, as invoked by
`expandStep`: `expand_peer_matching` at fuel `fuel` for every step. -/
def pair_steps (f : Forest) (fuel : Nat) (nodes_circle : List NodeIndex)
    (touching_children : List (NodeIndex × NodeIndex)) (idx steps i : Nat) :
    Except ExpandErr (List (NodeIndex × NodeIndex)) :=
  pairStepsWith (expandPeerMatchingWith (expandGo f fuel)) nodes_circle touching_children idx steps i

/-- The first loop of `get_perfect_matching`: extend the pair list with
`expand_peer_matching` of every `peer_matchings` entry. -/
def expand_peer_list (f : Forest) (fuel : Nat) :
    List ((NodeIndex × NodeIndex) × (NodeIndex × NodeIndex)) →
    Except ExpandErr (List (NodeIndex × NodeIndex))
  | [] => .ok []
  | ((dual_node_ptr_1, touching_1), (dual_node_ptr_2, touching_2)) :: rest =>
    match expand_peer_matching f fuel dual_node_ptr_1 touching_1 dual_node_ptr_2 touching_2 with
    | .error e => .error e
    | .ok l =>
      match expand_peer_list f fuel rest with
      | .error e => .error e
      | .ok r => .ok (l ++ r)

/-- The second loop of `get_perfect_matching`: for every `virtual_matchings`
entry `((node, touching), virtual_vertex)`, extend the pair list with
`expand_blossom node touching` and push `(touching, virtual_vertex)` onto the
virtual list. -/
def expand_virtual_list (f : Forest) (fuel : Nat) :
    List ((NodeIndex × NodeIndex) × VertexIndex) →
    Except ExpandErr (List (NodeIndex × NodeIndex) × List (NodeIndex × VertexIndex))
  | [] => .ok ([], [])
  | ((dual_node_ptr, touching_ptr), virtual_vertex) :: rest =>
    match expand_blossom f fuel dual_node_ptr touching_ptr with
    | .error e => .error e
    | .ok l =>
      match expand_virtual_list f fuel rest with
      | .error e => .error e
      | .ok (lr, vr) => .ok (l ++ lr, (touching_ptr, virtual_vertex) :: vr)

/-- Source function `IntermediateMatching::get_perfect_matching`. -/
def get_perfect_matching (f : Forest) (fuel : Nat) (self : IntermediateMatching) :
    Except ExpandErr PerfectMatching :=
  match expand_peer_list f fuel self.peer_matchings with
  | .error e => .error e
  | .ok peers =>
    match expand_virtual_list f fuel self.virtual_matchings with
    | .error e => .error e
    | .ok (vpeers, virtuals) => .ok ⟨peers ++ vpeers, virtuals⟩

/-- The default `perfect_matching` of the `PrimalModuleImpl` trait: call the
implementation's `intermediate_matching` (abstracted as a function out of the
implementation state `σ`, which stands for `&mut self`, the interface and the
dual module) and hand its result to `get_perfect_matching`. -/
def perfect_matching_default {σ : Type} (f : Forest) (fuel : Nat)
    (intermediate_matching : σ → IntermediateMatching) (s : σ) :
    Except ExpandErr PerfectMatching :=
  get_perfect_matching f fuel (intermediate_matching s)

/-- The abnormal outcomes reachable from `legacy_get_mwpm_result`:
`danglingNode` is the arena-model artifact for a dead pointer,
`notSyndrome` stands for the constant-message
`unreachable!("can only be syndrome")`, and `vertexNotFound v` for
`panic!("cannot find syndrome vertex {}", v)`. -/
inductive LegacyErr where
  | danglingNode
  | notSyndrome
  | vertexNotFound (v : Nat)
  deriving DecidableEq

/-- Read a node expected to be a `SyndromeVertex` and return its
`syndrome_index` (the `if let ... else unreachable!` blocks of
`legacy_get_mwpm_result`). -/
def read_syndrome_index (f : Forest) (i : NodeIndex) : Except LegacyErr Nat :=
  match lookupNode f i with
  | none => .error .danglingNode
  | some node =>
    match node.nodeClass with
    | .syndromeVertex syndrome_index => .ok syndrome_index
    | .blossom _ _ => .error .notSyndrome

/-- Insert with overwrite, the `BTreeMap::insert` of the source restricted to
what `legacy_get_mwpm_result` observes (later inserts win, lookups by key). -/
def map_insert (m : List (Nat × Nat)) (k v : Nat) : List (Nat × Nat) :=
  if m.any (fun p => p.1 == k) then
    m.map (fun p => if p.1 == k then (k, v) else p)
  else m ++ [(k, v)]

/-- Lookup, the `BTreeMap::get` of the source. -/
def map_lookup (m : List (Nat × Nat)) (k : Nat) : Option Nat :=
  (m.find? (fun p => p.1 == k)).map (fun p => p.2)

/-- The first loop of `legacy_get_mwpm_result`: build `peer_matching_maps`
by inserting `a_vid -> b_vid` and `b_vid -> a_vid` for every matched pair. -/
def build_peer_map (f : Forest) (acc : List (Nat × Nat)) :
    List (NodeIndex × NodeIndex) → Except LegacyErr (List (Nat × Nat))
  | [] => .ok acc
  | (ptr_1, ptr_2) :: rest =>
    match read_syndrome_index f ptr_1 with
    | .error e => .error e
    | .ok a_vid =>
      match read_syndrome_index f ptr_2 with
      | .error e => .error e
      | .ok b_vid => build_peer_map f (map_insert (map_insert acc a_vid b_vid) b_vid a_vid) rest

/-- The second loop of `legacy_get_mwpm_result`: build `virtual_matching_maps`
by inserting `a_vid -> virtual_vertex` for every virtual matching. -/
def build_virtual_map (f : Forest) (acc : List (Nat × Nat)) :
    List (NodeIndex × VertexIndex) → Except LegacyErr (List (Nat × Nat))
  | [] => .ok acc
  | (ptr, virtual_vertex) :: rest =>
    match read_syndrome_index f ptr with
    | .error e => .error e
    | .ok a_vid => build_virtual_map f (map_insert acc a_vid virtual_vertex) rest

/-- The final loop of `legacy_get_mwpm_result`: for each requested syndrome
vertex, push its peer-map entry if present, otherwise its virtual-map entry,
otherwise fail naming the vertex. -/
def query_loop (peer_matching_maps virtual_matching_maps : List (Nat × Nat)) :
    List Nat → Except LegacyErr (List Nat)
  | [] => .ok []
  | syndrome_vertex :: rest =>
    match map_lookup peer_matching_maps syndrome_vertex with
    | some a =>
      match query_loop peer_matching_maps virtual_matching_maps rest with
      | .error e => .error e
      | .ok r => .ok (a :: r)
    | none =>
      match map_lookup virtual_matching_maps syndrome_vertex with
      | some v =>
        match query_loop peer_matching_maps virtual_matching_maps rest with
        | .error e => .error e
        | .ok r => .ok (v :: r)
      | none => .error (.vertexNotFound syndrome_vertex)

/-- Source function `PerfectMatching::legacy_get_mwpm_result(syndrome_vertices)`. -/
def PerfectMatching.legacy_get_mwpm_result (f : Forest) (self : PerfectMatching)
    (syndrome_vertices : List Nat) : Except LegacyErr (List Nat) :=
  match build_peer_map f [] self.peer_matchings with
  | .error e => .error e
  | .ok peer_matching_maps =>
    match build_virtual_map f [] self.virtual_matchings with
    | .error e => .error e
    | .ok virtual_matching_maps =>
      query_loop peer_matching_maps virtual_matching_maps syndrome_vertices

/-! ## The parallel primal orchestrator (`primal_module_parallel.rs`) -/

/-- Modelled from the spec: `SolverInitializer` (defined in `util.rs`, not
among the sampled sources) carries the problem description: vertex count,
weighted edge list, and the designated virtual vertices (section 6). -/
structure SolverInitializer where
  vertex_num : Nat
  weighted_edges : List (VertexIndex × VertexIndex × Int)
  virtual_vertices : List VertexIndex
  deriving DecidableEq

/-- Modelled from the spec: `PartitionInfo` (from `util.rs`, not among the
sampled sources) describes the initial partitions; no field of it is read by
the code under verification. -/
structure PartitionInfo where
  deriving DecidableEq

/-- Modelled from the spec: `DualModuleInterface` (from `dual_module.rs`, not
among the sampled sources); no field of it is read by the code under
verification. -/
structure DualModuleInterface where
  deriving DecidableEq

/-- Modelled from the spec: `GroupMaxUpdateLength` (from `dual_module.rs`,
not among the sampled sources), the opaque conflict bundle consumed by
`resolve`; no field of it is read by the code under verification. -/
structure GroupMaxUpdateLength where
  deriving DecidableEq

/-- Modelled from the spec: `PrimalModuleSerial` (from
`primal_module_serial.rs`, not among the sampled sources), the serial primal
module owned by each parallel unit; its internals are out of scope. -/
structure PrimalModuleSerial where
  deriving DecidableEq

/-- Model of `PrimalModuleParallelUnit`: a unit index plus its owned serial module. -/
structure PrimalModuleParallelUnit where
  unit_index : Nat
  serial_module : PrimalModuleSerial
  deriving DecidableEq

/-- Model of `PrimalModuleParallel`: the wrapped units (the `rayon` thread pool is a
runtime resource with no bearing on the placeholder behaviour). -/
structure PrimalModuleParallel where
  units : List PrimalModuleParallelUnit
  deriving DecidableEq

/-- Model of `PrimalModuleParallelConfig`. -/
structure PrimalModuleParallelConfig where
  thread_pool_size : Nat
  deriving DecidableEq

/-- Source function `primal_module_parallel_default_configs::thread_pool_size()` (the
debug setting of the source: a single core). -/
def primal_module_parallel_default_configs.thread_pool_size : Nat := 1

/-- Source function `PrimalModuleParallelConfig::default()`: deserializing `{}` fills every
field from its default function. -/
def PrimalModuleParallelConfig.default : PrimalModuleParallelConfig :=
  ⟨primal_module_parallel_default_configs.thread_pool_size⟩

/-- A panic. Every not-yet-wired operation of the parallel orchestrator
evaluates `unimplemented!()`. -/
inductive Panic where
  | unimplemented
  deriving DecidableEq

/-- Modelled from the spec: `PartitionConfig::default(initializer).into_info(initializer)`
(from `util.rs`, not among the sampled sources) builds the partition
description for a single unpartitioned problem; its value is never read by
the placeholder `new_config`. -/
def PartitionConfig.default_into_info (_initializer : SolverInitializer) : PartitionInfo := ⟨⟩

/-- Source function `PrimalModuleParallel::new_config`: the body is `unimplemented!()`. -/
def PrimalModuleParallel.new_config (_initializer : SolverInitializer)
    (_partition_info : PartitionInfo) (_config : PrimalModuleParallelConfig) :
    Except Panic PrimalModuleParallel :=
  .error .unimplemented

/-- Source function `PrimalModuleImpl::new` for `PrimalModuleParallel`: delegates to
`new_config` with the default partition info and default configuration. -/
def PrimalModuleParallel.new (initializer : SolverInitializer) : Except Panic PrimalModuleParallel :=
  PrimalModuleParallel.new_config initializer (PartitionConfig.default_into_info initializer)
    PrimalModuleParallelConfig.default

/-- Source function `PrimalModuleImpl::clear` for `PrimalModuleParallel`: the body is `unimplemented!()`. -/
def PrimalModuleParallel.clear (_self : PrimalModuleParallel) : Except Panic PrimalModuleParallel :=
  .error .unimplemented

/-- Source function `PrimalModuleImpl::load` for `PrimalModuleParallel`: the body is `unimplemented!()`. -/
def PrimalModuleParallel.load (_self : PrimalModuleParallel)
    (_interface : DualModuleInterface) : Except Panic PrimalModuleParallel :=
  .error .unimplemented

/-- Source function `PrimalModuleImpl::resolve` for `PrimalModuleParallel` (generic over the
dual module implementation `D`): `unimplemented!()`. -/
def PrimalModuleParallel.resolve {D : Type} (_self : PrimalModuleParallel)
    (_group_max_update_length : GroupMaxUpdateLength) (_interface : DualModuleInterface)
    (_dual_module : D) : Except Panic (PrimalModuleParallel × DualModuleInterface × D) :=
  .error .unimplemented

/-- Source function `PrimalModuleImpl::intermediate_matching` for `PrimalModuleParallel`
(generic over the dual module implementation `D`): `unimplemented!()`. -/
def PrimalModuleParallel.intermediate_matching {D : Type} (_self : PrimalModuleParallel)
    (_interface : DualModuleInterface) (_dual_module : D) : Except Panic IntermediateMatching :=
  .error .unimplemented

/-! ## Well-formedness of the node forest -/

/-- The parent chain starting at `t` reaches `b`: either `t = b`, or `t`
dereferences to a node whose `parent_blossom` chain reaches `b`.  This is
the ancestor relation along which the `expand_blossom` walk proceeds. -/
inductive ReachesUp (f : Forest) (b : NodeIndex) : NodeIndex → Prop
  | refl : ReachesUp f b b
  | step (t : NodeIndex) (c : DualNode) (p : NodeIndex) :
      lookupNode f t = some c → c.parent_blossom = some p →
      ReachesUp f b p → ReachesUp f b t

/-- Bounded executable check for `ReachesUp` (used to discharge concrete
instances by evaluation). -/
def reachesUpB (f : Forest) (b : NodeIndex) : Nat → NodeIndex → Bool
  | 0, t => t == b
  | gas + 1, t =>
    t == b ||
      match lookupNode f t with
      | some c =>
        match c.parent_blossom with
        | some p => reachesUpB f b gas p
        | none => false
      | none => false

/-- Executable check that parent links strictly increase `rank` (so every
parent chain is finite). -/
def parentRankOkB (f : Forest) (rank : NodeIndex → Nat) : Bool :=
  f.all fun node =>
    match node.parent_blossom with
    | none => true
    | some p => decide (rank node.index < rank p)

/-- Executable check that every member of a blossom's `nodes_circle` is a
node of the forest whose `parent_blossom` is that blossom. -/
def circleOkB (f : Forest) : Bool :=
  f.all fun node =>
    match node.nodeClass with
    | .blossom nodes_circle _ =>
      nodes_circle.all fun m =>
        (lookupNode f m).map DualNode.parent_blossom == some (some node.index)
    | .syndromeVertex _ => true

/-- Executable check that each recorded touching child reaches its circle
member along parent links (within `gas` steps). -/
def touchOkB (f : Forest) (gas : Nat) : Bool :=
  f.all fun node =>
    match node.nodeClass with
    | .blossom nodes_circle touching_children =>
      (nodes_circle.zip touching_children).all fun pr =>
        reachesUpB f pr.1 gas pr.2.1 && reachesUpB f pr.1 gas pr.2.2
    | .syndromeVertex _ => true

/-- Executable check of the blossom parity invariant: every blossom's
circle has odd length at least 3. -/
def parityOkB (f : Forest) : Bool :=
  f.all fun node =>
    match node.nodeClass with
    | .blossom nodes_circle _ => nodes_circle.length % 2 == 1 && 3 ≤ nodes_circle.length
    | .syndromeVertex _ => true

/-! ## Concrete forests used as evaluation inputs -/

/-- A well-formed one-level blossom: node 0 is a blossom over the syndrome
vertices 1, 2, 3, each touching child being the circle node itself. -/
def exampleBlossomForest : Forest :=
  [⟨0, .blossom [1, 2, 3] [(1, 1), (2, 2), (3, 3)], none⟩,
   ⟨1, .syndromeVertex 10, some 0⟩,
   ⟨2, .syndromeVertex 20, some 0⟩,
   ⟨3, .syndromeVertex 30, some 0⟩]

/-- A rank function witnessing that `exampleBlossomForest` has finite
parent chains. -/
def exampleRank : NodeIndex → Nat := fun n => if n = 0 then 1 else 0

/-- A corrupted forest: node 5 claims node 0 as its parent blossom, but does
not occur in node 0's circle. -/
def strayChildForestA : Forest :=
  [⟨0, .blossom [1, 2, 3] [(1, 1), (2, 2), (3, 3)], none⟩,
   ⟨5, .syndromeVertex 0, some 0⟩]

/-- Like `strayChildForestA` with offending child 7 instead of 5. -/
def strayChildForestB : Forest :=
  [⟨0, .blossom [1, 2, 3] [(1, 1), (2, 2), (3, 3)], none⟩,
   ⟨7, .syndromeVertex 0, some 0⟩]

/-- A corrupted forest: node 4 has no parent blossom at all. -/
def orphanForest : Forest := [⟨4, .syndromeVertex 0, none⟩]

/-- A finite forest on which `expand_blossom 0 1` diverges although node 0
is the direct parent blossom of node 1: the recorded right touch of circle
position 1 is node 10, whose parent chain cycles between 10 and 11 and so
never reaches the circle node 2 being expanded. -/
def cycleForest : Forest :=
  [⟨0, .blossom [1, 2, 3] [(1, 1), (10, 10), (3, 3)], none⟩,
   ⟨1, .syndromeVertex 0, some 0⟩,
   ⟨2, .syndromeVertex 1, some 0⟩,
   ⟨3, .syndromeVertex 2, some 0⟩,
   ⟨10, .syndromeVertex 3, some 11⟩,
   ⟨11, .syndromeVertex 4, some 10⟩]

/-- Three top-level syndrome vertices with indices 10, 20, 30. -/
def legacyForest : Forest :=
  [⟨1, .syndromeVertex 10, none⟩,
   ⟨2, .syndromeVertex 20, none⟩,
   ⟨3, .syndromeVertex 30, none⟩]

/-- A perfect matching over `legacyForest`: nodes 1 and 2 matched to each
other, node 3 matched to virtual vertex 99. -/
def legacyMatching : PerfectMatching := ⟨[(1, 2)], [(3, 99)]⟩

/-- Like `legacyForest` but node 3 carries syndrome index 10 as well, so
that one identifier occurs in both matching maps. -/
def legacyForestB : Forest :=
  [⟨1, .syndromeVertex 10, none⟩,
   ⟨2, .syndromeVertex 20, none⟩,
   ⟨3, .syndromeVertex 10, none⟩]

/-- A perfect matching over `legacyForestB`: peer pair (1, 2) puts 10 in the
peer map, virtual pair (3, 77) puts 10 in the virtual map as well. -/
def legacyMatchingB : PerfectMatching := ⟨[(1, 2)], [(3, 77)]⟩

/-- A small intermediate matching over the empty forest: two top-level
syndrome nodes 1 and 2 matched to each other, node 3 matched to virtual
vertex 9. -/
def exampleIntermediate : IntermediateMatching := ⟨[((1, 1), (2, 2))], [((3, 3), 9)]⟩

/-! ## Unfolding lemmas -/

theorem expandGo_zero (f : Forest) (b t : NodeIndex) :
    expandGo f 0 b t = if t = b then .ok [] else .error .outOfFuel := rfl

theorem expandGo_succ (f : Forest) (n : Nat) (b t : NodeIndex) :
    expandGo f (n + 1) b t =
      if t = b then .ok [] else expandStep f (expandGo f n) b t := rfl

/-! ## Error-propagation helpers -/

/-- Source function `expand_peer_matching` produces a given error only if one of its two
`expand_blossom` calls does. -/
theorem expandPeerMatchingWith_ne
    (eb : NodeIndex → NodeIndex → Except ExpandErr (List (NodeIndex × NodeIndex)))
    (e : ExpandErr) (n1 t1 n2 t2 : NodeIndex)
    (h1 : eb n1 t1 ≠ .error e) (h2 : eb n2 t2 ≠ .error e) :
    expandPeerMatchingWith eb n1 t1 n2 t2 ≠ .error e := by
  unfold expandPeerMatchingWith
  cases ha : eb n1 t1 with
  | error e1 =>
    simp only []
    intro hcontra
    exact h1 (ha.trans (by injection hcontra with h; rw [h]))
  | ok l1 =>
    cases hb : eb n2 t2 with
    | error e2 =>
      simp only []
      intro hcontra
      exact h2 (hb.trans (by injection hcontra with h; rw [h]))
    | ok l2 => simp

/-- The pairing loop produces a given error (other than the dangling-pointer
artifact) only if one of its `expand_peer_matching` calls does. -/
theorem pairStepsWith_ne
    (ep : NodeIndex → NodeIndex → NodeIndex → NodeIndex → Except ExpandErr (List (NodeIndex × NodeIndex)))
    (circ : List NodeIndex) (tch : List (NodeIndex × NodeIndex)) (idx : Nat)
    (e : ExpandErr) (hd : e ≠ .danglingPointer)
    (H : ∀ j1 j2 n1 n2 t1 t2, circ.get? j1 = some n1 → circ.get? j2 = some n2 →
      tch.get? j1 = some t1 → tch.get? j2 = some t2 → ep n1 t1.2 n2 t2.1 ≠ .error e) :
    ∀ steps i, pairStepsWith ep circ tch idx steps i ≠ .error e := by
  intro steps
  induction steps with
  | zero => intro i; simp [pairStepsWith]
  | succ n ih =>
    intro i
    rw [pairStepsWith]
    cases h1 : circ.get? ((idx + i + 1) % circ.length) with
    | none =>
      cases h2 : circ.get? ((idx + i + 2) % circ.length) <;>
        cases h3 : tch.get? ((idx + i + 1) % circ.length) <;>
          cases h4 : tch.get? ((idx + i + 2) % circ.length) <;>
            simp [Ne.symm hd]
    | some n1 =>
      cases h2 : circ.get? ((idx + i + 2) % circ.length) with
      | none =>
        cases h3 : tch.get? ((idx + i + 1) % circ.length) <;>
          cases h4 : tch.get? ((idx + i + 2) % circ.length) <;>
            simp [Ne.symm hd]
      | some n2 =>
        cases h3 : tch.get? ((idx + i + 1) % circ.length) with
        | none =>
          cases h4 : tch.get? ((idx + i + 2) % circ.length) <;> simp [Ne.symm hd]
        | some t1 =>
          cases h4 : tch.get? ((idx + i + 2) % circ.length) with
          | none => simp [Ne.symm hd]
          | some t2 =>
            simp only []
            cases hep : ep n1 t1.2 n2 t2.1 with
            | error e1 =>
              intro hcontra
              exact H _ _ _ _ _ _ h1 h2 h3 h4 (hep.trans (by injection hcontra with h; rw [h]))
            | ok l =>
              cases hrec : pairStepsWith ep circ tch idx n (i + 2) with
              | error e2 =>
                intro hcontra
                exact ih (i + 2) (hrec.trans (by injection hcontra with h; rw [h]))
              | ok r => simp

/-! ## C7: expansion is a no-op when the touching node is the blossom itself -/

/-- C7: whenever the touching argument equals the blossom argument (in
particular for a leaf entered through itself), `expand_blossom` returns the
empty pairing list without reading any node of any forest, at any fuel. -/
theorem c7_expand_blossom_self (f : Forest) (fuel : Nat) (n : NodeIndex) :
    expand_blossom f fuel n n = .ok [] := by
  cases fuel <;> simp [expand_blossom, expandGo]

/-! ## C3: expand_peer_matching is the concatenation of both expansions plus the touching pair -/

/-- C3: when the two blossom expansions succeed with lists `l1` and `l2`,
`expand_peer_matching nodeA touchA nodeB touchB` returns exactly
`l1 ++ l2` followed by the single pair `(touchA, touchB)` as last element. -/
theorem c3_expand_peer_matching_concat (f : Forest) (fuel : Nat)
    (nodeA touchA nodeB touchB : NodeIndex) (l1 l2 : List (NodeIndex × NodeIndex))
    (h1 : expand_blossom f fuel nodeA touchA = .ok l1)
    (h2 : expand_blossom f fuel nodeB touchB = .ok l2) :
    expand_peer_matching f fuel nodeA touchA nodeB touchB = .ok (l1 ++ l2 ++ [(touchA, touchB)]) := by
  simp only [expand_blossom] at h1 h2
  simp [expand_peer_matching, expandPeerMatchingWith, h1, h2]

/-- Witness for C3 at a concrete input: both sides are leaves entered
through themselves, so the result is the single touching pair. -/
theorem c3_witness : expand_peer_matching [] 7 1 1 2 2 = .ok [(1, 2)] := by
  have h := c3_expand_peer_matching_concat [] 7 1 1 2 2 [] [] rfl rfl
  simpa using h

/-! ## C9: the parallel orchestrator placeholders always fail -/

/-- C9: `new_config`, `clear`, `load`, `resolve` and `intermediate_matching`
of `PrimalModuleParallel` fail with the unimplemented panic on every input,
and consequently so does `new`, which calls `new_config`. -/
theorem c9_parallel_unimplemented :
    (∀ initializer partition_info config,
      PrimalModuleParallel.new_config initializer partition_info config = .error .unimplemented) ∧
    (∀ self, PrimalModuleParallel.clear self = .error .unimplemented) ∧
    (∀ self interface, PrimalModuleParallel.load self interface = .error .unimplemented) ∧
    (∀ (D : Type) (self : PrimalModuleParallel) (group_max_update_length : GroupMaxUpdateLength)
      (interface : DualModuleInterface) (dual_module : D),
      PrimalModuleParallel.resolve self group_max_update_length interface dual_module
        = .error .unimplemented) ∧
    (∀ (D : Type) (self : PrimalModuleParallel) (interface : DualModuleInterface)
      (dual_module : D),
      PrimalModuleParallel.intermediate_matching self interface dual_module
        = .error .unimplemented) ∧
    (∀ initializer, PrimalModuleParallel.new initializer = .error .unimplemented) :=
  ⟨fun _ _ _ => rfl, fun _ => rfl, fun _ _ => rfl, fun _ _ _ _ _ => rfl,
   fun _ _ _ _ => rfl, fun _ => rfl⟩

/-! ## C5: behaviour on the two structural-corruption cases -/

/-- Counterexample to C5 as stated: in the child-not-in-circle case the
diagnostic is the constant `should find child` message, which cannot
identify the offending node — two forests whose offending children differ
(5 in one, 7 in the other) produce identical errors. -/
theorem c5_counterexample :
    expand_blossom strayChildForestA 1 0 5 = .error .shouldFindChild ∧
    expand_blossom strayChildForestB 1 0 7 = .error .shouldFindChild ∧ 5 ≠ 7 :=
  ⟨rfl, rfl, by decide⟩

/-- C5 as amended: `expand_blossom` aborts with an error — never an `ok`
pairing list — in both structural-corruption cases: when the current child
is not found in its parent blossom's circle it fails with the constant
`should find child` diagnostic (which does not name the node), and when the
current child has no parent blossom it fails with a diagnostic carrying the
offending child's index. -/
theorem c5_amended :
    (∀ (f : Forest) (fuel : Nat) (b t : NodeIndex) (c : DualNode) (p : NodeIndex)
      (parent : DualNode) (circ : List NodeIndex) (tch : List (NodeIndex × NodeIndex)),
      t ≠ b → lookupNode f t = some c → c.parent_blossom = some p →
      lookupNode f p = some parent → parent.nodeClass = .blossom circ tch →
      List.findIdx? (fun ptr => ptr == t) circ = none →
      expand_blossom f (fuel + 1) b t = .error .shouldFindChild) ∧
    (∀ (f : Forest) (fuel : Nat) (b t : NodeIndex) (c : DualNode),
      t ≠ b → lookupNode f t = some c → c.parent_blossom = none →
      expand_blossom f (fuel + 1) b t = .error (.cannotFindParent c.index)) := by
  constructor
  · intro f fuel b t c p parent circ tch hne hc hp hparent hclass hidx
    simp [expand_blossom, expandGo_succ, hne, expandStep, hc, hp, hparent, hclass, hidx]
  · intro f fuel b t c hne hc hp
    simp [expand_blossom, expandGo_succ, hne, expandStep, hc, hp]

/-- Witness for C5 (amended) at concrete inputs: the stray child 5 triggers
the constant diagnostic, the orphan node 4 triggers the diagnostic naming
its index. -/
theorem c5_witness :
    expand_blossom strayChildForestA 3 0 5 = .error .shouldFindChild ∧
    expand_blossom orphanForest 3 0 4 = .error (.cannotFindParent 4) := by
  constructor
  · exact c5_amended.1 strayChildForestA 2 0 5 ⟨5, .syndromeVertex 0, some 0⟩ 0
      ⟨0, .blossom [1, 2, 3] [(1, 1), (2, 2), (3, 3)], none⟩ [1, 2, 3]
      [(1, 1), (2, 2), (3, 3)] (by decide) rfl rfl rfl rfl rfl
  · exact c5_amended.2 orphanForest 2 0 4 ⟨4, .syndromeVertex 0, none⟩ (by decide) rfl rfl

/-! ## C8: the parity assertion never fires on parity-correct forests -/

/-- The executable parity check implies the parity invariant. -/
theorem parityOkB_sound (f : Forest) (h : parityOkB f = true) :
    ∀ node ∈ f, ∀ circ tch, node.nodeClass = DualNodeClass.blossom circ tch →
      circ.length % 2 = 1 ∧ 3 ≤ circ.length := by
  intro node hn circ tch hcls
  have hnode := List.all_eq_true.mp h node hn
  rw [hcls] at hnode
  simpa using hnode

/-- On a forest whose blossoms all have odd circles of length at least 3,
the walk never produces the parity-assertion failure, at any fuel. -/
theorem expandGo_ne_invalid (f : Forest)
    (H : ∀ node ∈ f, ∀ circ tch, node.nodeClass = DualNodeClass.blossom circ tch →
      circ.length % 2 = 1 ∧ 3 ≤ circ.length) :
    ∀ (fuel : Nat) (b t : NodeIndex), expandGo f fuel b t ≠ .error .invalidBlossom := by
  intro fuel
  induction fuel with
  | zero =>
    intro b t
    rw [expandGo_zero]
    split <;> simp
  | succ n ih =>
    intro b t
    rw [expandGo_succ]
    by_cases ht : t = b
    · simp [ht]
    · rw [if_neg ht]
      intro hcontra
      unfold expandStep at hcontra
      split at hcontra
      · simp at hcontra
      · rename_i child hc
        split at hcontra
        · simp at hcontra
        · rename_i p hp
          split at hcontra
          · simp at hcontra
          · rename_i parent hlp
            split at hcontra
            · exact ih b p hcontra
            · rename_i circ tch hcls
              split at hcontra
              · simp at hcontra
              · rename_i idx hidx
                split at hcontra
                · split at hcontra
                  · rename_i e hps
                    have hne := pairStepsWith_ne (expandPeerMatchingWith (expandGo f n)) circ tch
                      idx .invalidBlossom (by decide)
                      (fun j1 j2 n1 n2 t1 t2 _ _ _ _ =>
                        expandPeerMatchingWith_ne _ _ _ _ _ _ (ih n1 t1.2) (ih n2 t2.1))
                      (circ.length / 2) 0
                    rw [hps] at hne
                    exact hne hcontra
                  · rename_i pairs hps
                    split at hcontra
                    · rename_i e hrest
                      have hne := ih b p
                      rw [hrest] at hne
                      exact hne hcontra
                    · simp at hcontra
                · rename_i hnpar
                  exact hnpar (H parent (List.mem_of_find?_eq_some hlp) circ tch hcls)

/-- C8: on any forest in which every blossom's circle has odd length at
least 3, `expand_blossom` never fails with the parity-assertion error, for
any blossom, touching node and fuel — the assertion
`nodes_circle.len() % 2 == 1 && nodes_circle.len() >= 3` never fires. -/
theorem c8_parity_assertion_never_fails (f : Forest)
    (H : ∀ node ∈ f, ∀ circ tch, node.nodeClass = DualNodeClass.blossom circ tch →
      circ.length % 2 = 1 ∧ 3 ≤ circ.length)
    (fuel : Nat) (b t : NodeIndex) :
    expand_blossom f fuel b t ≠ .error .invalidBlossom :=
  expandGo_ne_invalid f H fuel b t

/-- Witness for C8 at a concrete parity-correct forest. -/
theorem c8_witness :
    expand_blossom exampleBlossomForest 5 0 1 ≠ .error .invalidBlossom :=
  c8_parity_assertion_never_fails exampleBlossomForest
    (parityOkB_sound exampleBlossomForest rfl) 5 0 1

/-! ## C1: the default perfect_matching and get_perfect_matching -/

/-- The peer loop of `get_perfect_matching` accumulates exactly the
concatenation of the `expand_peer_matching` results of its entries. -/
theorem expand_peer_list_eq (f : Forest) (fuel : Nat) :
    ∀ (l : List ((NodeIndex × NodeIndex) × (NodeIndex × NodeIndex)))
      (ps : List (List (NodeIndex × NodeIndex))),
      l.mapM (fun pp => expand_peer_matching f fuel pp.1.1 pp.1.2 pp.2.1 pp.2.2) = .ok ps →
      expand_peer_list f fuel l = .ok ps.flatten := by
  intro l
  induction l with
  | nil =>
    intro ps h
    have h' : Except.ok ([] : List (List (NodeIndex × NodeIndex))) = Except.ok ps := h
    obtain rfl : ([] : List (List (NodeIndex × NodeIndex))) = ps := by injection h'
    simp [expand_peer_list]
  | cons a rest ih =>
    intro ps h
    obtain ⟨⟨n1, t1⟩, n2, t2⟩ := a
    rw [List.mapM_cons] at h
    cases ha : expand_peer_matching f fuel n1 t1 n2 t2 with
    | error e =>
      rw [ha] at h
      have h' : (Except.error e : Except ExpandErr (List (List (NodeIndex × NodeIndex))))
          = Except.ok ps := h
      exact absurd h' (by simp)
    | ok x =>
      rw [ha] at h
      cases hrest : rest.mapM (fun pp => expand_peer_matching f fuel pp.1.1 pp.1.2 pp.2.1 pp.2.2) with
      | error e =>
        rw [hrest] at h
        have h' : (Except.error e : Except ExpandErr (List (List (NodeIndex × NodeIndex))))
            = Except.ok ps := h
        exact absurd h' (by simp)
      | ok xs =>
        rw [hrest] at h
        have h' : Except.ok (x :: xs) = Except.ok ps := h
        obtain rfl : x :: xs = ps := by injection h'
        simp only [expand_peer_list, ha, ih xs hrest, List.flatten]

/-- The virtual loop of `get_perfect_matching` accumulates the concatenation
of the `expand_blossom` results of its entries, and one virtual pairing
`(touching, virtual_vertex)` per entry. -/
theorem expand_virtual_list_eq (f : Forest) (fuel : Nat) :
    ∀ (l : List ((NodeIndex × NodeIndex) × VertexIndex))
      (vs : List (List (NodeIndex × NodeIndex))),
      l.mapM (fun vv => expand_blossom f fuel vv.1.1 vv.1.2) = .ok vs →
      expand_virtual_list f fuel l = .ok (vs.flatten, l.map (fun vv => (vv.1.2, vv.2))) := by
  intro l
  induction l with
  | nil =>
    intro vs h
    have h' : Except.ok ([] : List (List (NodeIndex × NodeIndex))) = Except.ok vs := h
    obtain rfl : ([] : List (List (NodeIndex × NodeIndex))) = vs := by injection h'
    simp [expand_virtual_list]
  | cons a rest ih =>
    intro vs h
    obtain ⟨⟨n1, t1⟩, v⟩ := a
    rw [List.mapM_cons] at h
    cases ha : expand_blossom f fuel n1 t1 with
    | error e =>
      rw [ha] at h
      have h' : (Except.error e : Except ExpandErr (List (List (NodeIndex × NodeIndex))))
          = Except.ok vs := h
      exact absurd h' (by simp)
    | ok x =>
      rw [ha] at h
      cases hrest : rest.mapM (fun vv => expand_blossom f fuel vv.1.1 vv.1.2) with
      | error e =>
        rw [hrest] at h
        have h' : (Except.error e : Except ExpandErr (List (List (NodeIndex × NodeIndex))))
            = Except.ok vs := h
        exact absurd h' (by simp)
      | ok xs =>
        rw [hrest] at h
        have h' : Except.ok (x :: xs) = Except.ok vs := h
        obtain rfl : x :: xs = vs := by injection h'
        simp only [expand_virtual_list, ha, ih xs hrest, List.flatten, List.map]

/-- C1: the default `perfect_matching` of the trait is exactly
`get_perfect_matching` applied to the result of `intermediate_matching`,
and `get_perfect_matching` applies `expand_peer_matching` to every
`peer_matchings` entry and, for every `virtual_matchings` entry
`((node, touching), v)`, appends `expand_blossom node touching` plus the
single virtual pairing `(touching, v)`, accumulated into a fresh
`PerfectMatching`. -/
theorem c1_perfect_matching_default_spec {σ : Type} (f : Forest) (fuel : Nat)
    (intermediate_matching : σ → IntermediateMatching) (s : σ) :
    perfect_matching_default f fuel intermediate_matching s
      = get_perfect_matching f fuel (intermediate_matching s) ∧
    (∀ (im : IntermediateMatching) (ps vs : List (List (NodeIndex × NodeIndex))),
      im.peer_matchings.mapM
          (fun pp => expand_peer_matching f fuel pp.1.1 pp.1.2 pp.2.1 pp.2.2) = .ok ps →
      im.virtual_matchings.mapM (fun vv => expand_blossom f fuel vv.1.1 vv.1.2) = .ok vs →
      get_perfect_matching f fuel im
        = .ok ⟨ps.flatten ++ vs.flatten, im.virtual_matchings.map (fun vv => (vv.1.2, vv.2))⟩) := by
  constructor
  · rfl
  · intro im ps vs hps hvs
    simp only [get_perfect_matching, expand_peer_list_eq f fuel im.peer_matchings ps hps,
      expand_virtual_list_eq f fuel im.virtual_matchings vs hvs]

/-- Witness for C1 at a concrete intermediate matching over the empty
forest: the peer pair of leaves 1, 2 and the virtual matching of leaf 3
to virtual vertex 9 expand to the expected perfect matching. -/
theorem c1_witness :
    get_perfect_matching [] 3 exampleIntermediate = .ok ⟨[(1, 2)], [(3, 9)]⟩ := by
  have h := (c1_perfect_matching_default_spec (σ := Unit) [] 3 (fun _ => exampleIntermediate) ()).2
    exampleIntermediate [[(1, 2)]] [[]] rfl rfl
  simpa using h

/-! ## C2: the pairing performed at one blossom level -/

/-- In-bounds `get?` returns the `getD` value. -/
theorem get?_eq_some_getD {α : Type} (l : List α) (n : Nat) (d : α) (h : n < l.length) :
    l.get? n = some (l.getD n d) := by
  rw [List.getD_eq_getElem?_getD]
  cases hx : l[n]? with
  | none => rw [List.getElem?_eq_none_iff] at hx; omega
  | some x => simp [List.get?_eq_getElem?, hx]

/-- The pairing loop started at loop variable `2 * k` with `m` remaining
iterations performs exactly the steps `k, k+1, ..., k+m-1`, the `j`-th step
being `expand_peer_matching` of circle positions `(idx+2j+1) % len` and
`(idx+2j+2) % len` through the right touch of the former and the left touch
of the latter. -/
theorem pair_steps_range (f : Forest) (fuel : Nat) (circ : List NodeIndex)
    (tch : List (NodeIndex × NodeIndex)) (idx : Nat)
    (hlen : 0 < circ.length) (htch : tch.length = circ.length) :
    ∀ (m k : Nat),
      pair_steps f fuel circ tch idx m (2 * k) =
        Except.map List.flatten ((List.range' k m).mapM (fun j =>
          expand_peer_matching f fuel
            (circ.getD ((idx + 2 * j + 1) % circ.length) 0)
            ((tch.getD ((idx + 2 * j + 1) % circ.length) (0, 0)).2)
            (circ.getD ((idx + 2 * j + 2) % circ.length) 0)
            ((tch.getD ((idx + 2 * j + 2) % circ.length) (0, 0)).1))) := by
  intro m
  induction m with
  | zero =>
    intro k
    rfl
  | succ n ih =>
    intro k
    have h1 : circ.get? ((idx + 2 * k + 1) % circ.length)
        = some (circ.getD ((idx + 2 * k + 1) % circ.length) 0) :=
      get?_eq_some_getD _ _ _ (Nat.mod_lt _ hlen)
    have h2 : circ.get? ((idx + 2 * k + 2) % circ.length)
        = some (circ.getD ((idx + 2 * k + 2) % circ.length) 0) :=
      get?_eq_some_getD _ _ _ (Nat.mod_lt _ hlen)
    have h3 : tch.get? ((idx + 2 * k + 1) % circ.length)
        = some (tch.getD ((idx + 2 * k + 1) % circ.length) (0, 0)) :=
      get?_eq_some_getD _ _ _ (by rw [htch]; exact Nat.mod_lt _ hlen)
    have h4 : tch.get? ((idx + 2 * k + 2) % circ.length)
        = some (tch.getD ((idx + 2 * k + 2) % circ.length) (0, 0)) :=
      get?_eq_some_getD _ _ _ (by rw [htch]; exact Nat.mod_lt _ hlen)
    rw [List.range'_succ, List.mapM_cons]
    simp only [pair_steps, pairStepsWith, expand_peer_matching, h1, h2, h3, h4]
    cases hep : expandPeerMatchingWith (expandGo f fuel)
        (circ.getD ((idx + 2 * k + 1) % circ.length) 0)
        ((tch.getD ((idx + 2 * k + 1) % circ.length) (0, 0)).2)
        (circ.getD ((idx + 2 * k + 2) % circ.length) 0)
        ((tch.getD ((idx + 2 * k + 2) % circ.length) (0, 0)).1) with
    | error e => rfl
    | ok l =>
      have hstep : 2 * k + 2 = 2 * (k + 1) := by ring
      have ihk := ih (k + 1)
      simp only [pair_steps, expand_peer_matching] at ihk
      rw [hstep, ihk]
      cases hrest : (List.range' (k + 1) n).mapM (fun j =>
          expandPeerMatchingWith (expandGo f fuel)
            (circ.getD ((idx + 2 * j + 1) % circ.length) 0)
            ((tch.getD ((idx + 2 * j + 1) % circ.length) (0, 0)).2)
            (circ.getD ((idx + 2 * j + 2) % circ.length) 0)
            ((tch.getD ((idx + 2 * j + 2) % circ.length) (0, 0)).1)) with
      | error e => rfl
      | ok xs => rfl

/-- C2: on an odd circle of length at least 3 (with as many touching-children
entries), the pairing loop of one `expand_blossom` level, as invoked by the
walk (`(len-1)/2 = len/2` iterations starting at loop variable 0), is exactly
the sequence of `(len-1)/2` `expand_peer_matching` steps, the `k`-th pairing
circle position `(idx+2k+1) % len` with `(idx+2k+2) % len` through the right
touch of the former and the left touch of the latter. -/
theorem c2_blossom_level_pairing (f : Forest) (fuel : Nat) (circ : List NodeIndex)
    (tch : List (NodeIndex × NodeIndex)) (idx : Nat)
    (hodd : circ.length % 2 = 1) (hlen : 3 ≤ circ.length) (htch : tch.length = circ.length) :
    pair_steps f fuel circ tch idx (circ.length / 2) 0 =
      Except.map List.flatten ((List.range ((circ.length - 1) / 2)).mapM (fun k =>
        expand_peer_matching f fuel
          (circ.getD ((idx + 2 * k + 1) % circ.length) 0)
          ((tch.getD ((idx + 2 * k + 1) % circ.length) (0, 0)).2)
          (circ.getD ((idx + 2 * k + 2) % circ.length) 0)
          ((tch.getD ((idx + 2 * k + 2) % circ.length) (0, 0)).1))) := by
  have hdiv : circ.length / 2 = (circ.length - 1) / 2 := by omega
  have h0 := pair_steps_range f fuel circ tch idx (by omega) htch ((circ.length - 1) / 2) 0
  rw [List.range_eq_range']
  rw [hdiv]
  simpa using h0

/-- Witness for C2 at the concrete one-level blossom: entering the circle
`[1, 2, 3]` at position 0 pairs positions 1 and 2 in a single step. -/
theorem c2_witness :
    pair_steps exampleBlossomForest 4 [1, 2, 3] [(1, 1), (2, 2), (3, 3)] 0 1 0 =
      Except.map List.flatten ((List.range 1).mapM (fun k =>
        expand_peer_matching exampleBlossomForest 4
          (([1, 2, 3] : List NodeIndex).getD ((0 + 2 * k + 1) % 3) 0)
          (([(1, 1), (2, 2), (3, 3)] : List (NodeIndex × NodeIndex)).getD ((0 + 2 * k + 1) % 3) (0, 0)).2
          (([1, 2, 3] : List NodeIndex).getD ((0 + 2 * k + 2) % 3) 0)
          (([(1, 1), (2, 2), (3, 3)] : List (NodeIndex × NodeIndex)).getD ((0 + 2 * k + 2) % 3) (0, 0)).1)) := by
  exact c2_blossom_level_pairing exampleBlossomForest 4 [1, 2, 3] [(1, 1), (2, 2), (3, 3)] 0
    (by decide) (by decide) (by decide)

/-! ## C4 and C10: legacy result extraction -/

/-- When every requested vertex is present in one of the two maps, the query
loop succeeds, preserves length and order, and answers each request from the
peer map when possible, else from the virtual map. -/
theorem query_loop_ok (pmap vmap : List (Nat × Nat)) :
    ∀ (qs : List Nat),
      (∀ q ∈ qs, (map_lookup pmap q).isSome ∨ (map_lookup vmap q).isSome) →
      ∃ l, query_loop pmap vmap qs = .ok l ∧ l.length = qs.length ∧
        ∀ (i : Nat) (hi : i < qs.length) (hl : i < l.length),
          (∀ a, map_lookup pmap (qs.get ⟨i, hi⟩) = some a → l.get ⟨i, hl⟩ = a) ∧
          (map_lookup pmap (qs.get ⟨i, hi⟩) = none →
            ∀ v, map_lookup vmap (qs.get ⟨i, hi⟩) = some v → l.get ⟨i, hl⟩ = v) := by
  intro qs
  induction qs with
  | nil =>
    intro _
    exact ⟨[], rfl, rfl, fun i hi => absurd hi (by simp)⟩
  | cons q rest ih =>
    intro h
    obtain ⟨l, hl, hlen, hidx⟩ := ih (fun q' hq' => h q' (List.mem_cons_of_mem q hq'))
    cases hp : map_lookup pmap q with
    | some a =>
      refine ⟨a :: l, ?_, by simpa using hlen, ?_⟩
      · simp only [query_loop, hp, hl]
      · intro i hi hli
        cases i with
        | zero =>
          constructor
          · intro a' ha'
            have ha2 : map_lookup pmap q = some a' := ha'
            have h3 : some a = some a' := hp.symm.trans ha2
            injection h3
          · intro hnone
            have h2 : map_lookup pmap q = none := hnone
            rw [hp] at h2
            cases h2
        | succ i =>
          exact hidx i (Nat.lt_of_succ_lt_succ hi) (Nat.lt_of_succ_lt_succ hli)
    | none =>
      have hq := h q (List.mem_cons_self q rest)
      rw [hp] at hq
      cases hv : map_lookup vmap q with
      | none =>
        rw [hv] at hq
        simp at hq
      | some v =>
        refine ⟨v :: l, ?_, by simpa using hlen, ?_⟩
        · simp only [query_loop, hp, hv, hl]
        · intro i hi hli
          cases i with
          | zero =>
            constructor
            · intro a' ha'
              have ha2 : map_lookup pmap q = some a' := ha'
              rw [hp] at ha2
              cases ha2
            · intro _ v' hv'
              have hv2 : map_lookup vmap q = some v' := hv'
              have h3 : some v = some v' := hv.symm.trans hv2
              injection h3
          | succ i =>
            exact hidx i (Nat.lt_of_succ_lt_succ hi) (Nat.lt_of_succ_lt_succ hli)

/-- When some requested vertex is absent from both maps, the query loop fails
with the vertex-not-found error naming an absent requested vertex. -/
theorem query_loop_err (pmap vmap : List (Nat × Nat)) :
    ∀ (qs : List Nat) (q : Nat), q ∈ qs →
      map_lookup pmap q = none → map_lookup vmap q = none →
      ∃ q2, q2 ∈ qs ∧ map_lookup pmap q2 = none ∧ map_lookup vmap q2 = none ∧
        query_loop pmap vmap qs = .error (.vertexNotFound q2) := by
  intro qs
  induction qs with
  | nil => intro q hq; cases hq
  | cons q0 rest ih =>
    intro q hq hqp hqv
    cases hp : map_lookup pmap q0 with
    | some a =>
      have hqrest : q ∈ rest := by
        rcases List.mem_cons.mp hq with rfl | hmem
        · rw [hp] at hqp; cases hqp
        · exact hmem
      obtain ⟨q2, hq2mem, hq2p, hq2v, hq2err⟩ := ih q hqrest hqp hqv
      exact ⟨q2, List.mem_cons_of_mem q0 hq2mem, hq2p, hq2v, by
        simp only [query_loop, hp, hq2err]⟩
    | none =>
      cases hv : map_lookup vmap q0 with
      | some v =>
        have hqrest : q ∈ rest := by
          rcases List.mem_cons.mp hq with rfl | hmem
          · rw [hv] at hqv; cases hqv
          · exact hmem
        obtain ⟨q2, hq2mem, hq2p, hq2v, hq2err⟩ := ih q hqrest hqp hqv
        exact ⟨q2, List.mem_cons_of_mem q0 hq2mem, hq2p, hq2v, by
          simp only [query_loop, hp, hv, hq2err]⟩
      | none =>
        exact ⟨q0, List.mem_cons_self q0 rest, hp, hv, by
          simp only [query_loop, hp, hv]⟩

/-- C4: over a perfect matching whose nodes are all syndrome vertices (so
that building the two maps succeeds), a query list whose members all occur
in the peer map or the virtual map yields a result of the same length and
order, each entry being the matched peer identifier when peer-matched and
the assigned virtual vertex otherwise; and a query containing an identifier
absent from both maps fails with an error naming an absent requested
vertex. -/
theorem c4_legacy_get_mwpm_result_spec (f : Forest) (pm : PerfectMatching)
    (qs : List Nat) (pmap vmap : List (Nat × Nat))
    (hpm : build_peer_map f [] pm.peer_matchings = .ok pmap)
    (hvm : build_virtual_map f [] pm.virtual_matchings = .ok vmap) :
    ((∀ q ∈ qs, (map_lookup pmap q).isSome ∨ (map_lookup vmap q).isSome) →
      ∃ l, PerfectMatching.legacy_get_mwpm_result f pm qs = .ok l ∧ l.length = qs.length ∧
        ∀ (i : Nat) (hi : i < qs.length) (hl : i < l.length),
          (∀ a, map_lookup pmap (qs.get ⟨i, hi⟩) = some a → l.get ⟨i, hl⟩ = a) ∧
          (map_lookup pmap (qs.get ⟨i, hi⟩) = none →
            ∀ v, map_lookup vmap (qs.get ⟨i, hi⟩) = some v → l.get ⟨i, hl⟩ = v)) ∧
    (∀ q ∈ qs, map_lookup pmap q = none → map_lookup vmap q = none →
      ∃ q2, q2 ∈ qs ∧ map_lookup pmap q2 = none ∧ map_lookup vmap q2 = none ∧
        PerfectMatching.legacy_get_mwpm_result f pm qs = .error (.vertexNotFound q2)) := by
  constructor
  · intro h
    obtain ⟨l, hl, hlen, hidx⟩ := query_loop_ok pmap vmap qs h
    exact ⟨l, by simp only [PerfectMatching.legacy_get_mwpm_result, hpm, hvm, hl], hlen, hidx⟩
  · intro q hq hqp hqv
    obtain ⟨q2, hq2mem, hq2p, hq2v, hq2err⟩ := query_loop_err pmap vmap qs q hq hqp hqv
    exact ⟨q2, hq2mem, hq2p, hq2v,
      by simp only [PerfectMatching.legacy_get_mwpm_result, hpm, hvm, hq2err]⟩

/-- Witness for C4: over `legacyForest` and `legacyMatching`, querying
`[10, 30, 20]` succeeds with a same-length list. -/
theorem c4_witness :
    ∃ l, PerfectMatching.legacy_get_mwpm_result legacyForest legacyMatching [10, 30, 20]
        = .ok l ∧ l.length = ([10, 30, 20] : List Nat).length ∧
      ∀ (i : Nat) (hi : i < ([10, 30, 20] : List Nat).length) (hl : i < l.length),
        (∀ a, map_lookup [(10, 20), (20, 10)] (([10, 30, 20] : List Nat).get ⟨i, hi⟩) = some a →
          l.get ⟨i, hl⟩ = a) ∧
        (map_lookup [(10, 20), (20, 10)] (([10, 30, 20] : List Nat).get ⟨i, hi⟩) = none →
          ∀ v, map_lookup [(30, 99)] (([10, 30, 20] : List Nat).get ⟨i, hi⟩) = some v →
            l.get ⟨i, hl⟩ = v) :=
  (c4_legacy_get_mwpm_result_spec legacyForest legacyMatching [10, 30, 20]
    [(10, 20), (20, 10)] [(30, 99)] rfl rfl).1 (by decide)

/-- C10 (implicit): the peer map takes precedence — whenever a queried
identifier has entries in both maps, every result entry at a position
holding that identifier is the peer map's value, not the virtual one. -/
theorem c10_peer_precedence (f : Forest) (pm : PerfectMatching) (qs : List Nat)
    (pmap vmap : List (Nat × Nat)) (q a v : Nat)
    (hpm : build_peer_map f [] pm.peer_matchings = .ok pmap)
    (hvm : build_virtual_map f [] pm.virtual_matchings = .ok vmap)
    (hq : map_lookup pmap q = some a) (hv : map_lookup vmap q = some v)
    (hpresent : ∀ q2 ∈ qs, (map_lookup pmap q2).isSome ∨ (map_lookup vmap q2).isSome) :
    ∃ l, PerfectMatching.legacy_get_mwpm_result f pm qs = .ok l ∧ l.length = qs.length ∧
      ∀ (i : Nat) (hi : i < qs.length) (hl : i < l.length),
        qs.get ⟨i, hi⟩ = q → l.get ⟨i, hl⟩ = a := by
  obtain ⟨l, hl, hlen, hidx⟩ := query_loop_ok pmap vmap qs hpresent
  refine ⟨l, by simp only [PerfectMatching.legacy_get_mwpm_result, hpm, hvm, hl], hlen, ?_⟩
  intro i hi hli heq
  exact (hidx i hi hli).1 a (by rw [heq, hq])

/-- Witness for C10: identifier 10 is peer-matched to 20 and virtually
matched to 77; the query answers 20. -/
theorem c10_witness :
    ∃ l, PerfectMatching.legacy_get_mwpm_result legacyForestB legacyMatchingB [10]
        = .ok l ∧ l.length = ([10] : List Nat).length ∧
      ∀ (i : Nat) (hi : i < ([10] : List Nat).length) (hl : i < l.length),
        ([10] : List Nat).get ⟨i, hi⟩ = 10 → l.get ⟨i, hl⟩ = 20 :=
  c10_peer_precedence legacyForestB legacyMatchingB [10] [(10, 20), (20, 10)] [(10, 77)]
    10 20 77 rfl rfl rfl rfl (by decide)

/-! ## C6: termination of the expansion walk -/

/-- A successful `get?` is within bounds. -/
theorem lt_of_get?_eq_some {α : Type} {l : List α} {n : Nat} {a : α}
    (h : l.get? n = some a) : n < l.length := by
  by_contra hge
  rw [List.get?_eq_none.mpr (by omega)] at h
  cases h

/-- Entries at a common position of two lists are a member of their zip. -/
theorem get?_zip_mem {α β : Type} :
    ∀ (l1 : List α) (l2 : List β) (j : Nat) (a : α) (b : β),
      l1.get? j = some a → l2.get? j = some b → (a, b) ∈ l1.zip l2 := by
  intro l1
  induction l1 with
  | nil => intro l2 j a b h; cases h
  | cons x xs ih =>
    intro l2 j a b h1 h2
    cases l2 with
    | nil => cases h2
    | cons y ys =>
      cases j with
      | zero =>
        obtain rfl : x = a := by injection h1
        obtain rfl : y = b := by injection h2
        simp [List.zip_cons_cons]
      | succ j =>
        have := ih ys j a b h1 h2
        simp only [List.zip_cons_cons]
        exact List.mem_cons_of_mem _ this

/-- Finitely many eventually-true properties admit a uniform threshold. -/
theorem exists_uniform_bound (P : Nat → Nat → Prop) :
    ∀ (L : Nat), (∀ j, j < L → ∃ N, ∀ fuel, N ≤ fuel → P j fuel) →
      ∃ N, ∀ fuel, N ≤ fuel → ∀ j, j < L → P j fuel := by
  intro L
  induction L with
  | zero => intro _; exact ⟨0, fun fuel _ j hj => absurd hj (by omega)⟩
  | succ n ih =>
    intro h
    obtain ⟨N1, hN1⟩ := ih (fun j hj => h j (by omega))
    obtain ⟨N2, hN2⟩ := h n (by omega)
    refine ⟨max N1 N2, fun fuel hf j hj => ?_⟩
    by_cases hjn : j < n
    · exact hN1 fuel (le_trans (Nat.le_max_left _ _) hf) j hjn
    · obtain rfl : j = n := by omega
      exact hN2 fuel (le_trans (Nat.le_max_right _ _) hf)

/-- A found node is a member of the forest. -/
theorem lookupNode_mem {f : Forest} {i : NodeIndex} {c : DualNode}
    (h : lookupNode f i = some c) : c ∈ f :=
  List.mem_of_find?_eq_some h

/-- A found node carries the looked-up index. -/
theorem lookupNode_index {f : Forest} {i : NodeIndex} {c : DualNode}
    (h : lookupNode f i = some c) : c.index = i := by
  have h2 : f.find? (fun n => n.index == i) = some c := h
  have h3 := @List.find?_some DualNode (fun n => n.index == i) c f h2
  exact eq_of_beq h3

/-- The bounded reachability check implies `ReachesUp`. -/
theorem reachesUpB_sound (f : Forest) (b : NodeIndex) :
    ∀ (gas t : Nat), reachesUpB f b gas t = true → ReachesUp f b t := by
  intro gas
  induction gas with
  | zero =>
    intro t h
    obtain rfl : t = b := by simpa [reachesUpB] using h
    exact ReachesUp.refl
  | succ n ih =>
    intro t h
    simp only [reachesUpB, Bool.or_eq_true] at h
    rcases h with h | h
    · obtain rfl : t = b := by simpa using h
      exact ReachesUp.refl
    · cases hc : lookupNode f t with
      | none => rw [hc] at h; cases h
      | some c =>
        rw [hc] at h
        cases hp : c.parent_blossom with
        | none =>
          have h2 : (match c.parent_blossom with
            | some p => reachesUpB f b n p
            | none => false) = true := h
          rw [hp] at h2
          cases h2
        | some p =>
          have h2 : (match c.parent_blossom with
            | some p => reachesUpB f b n p
            | none => false) = true := h
          rw [hp] at h2
          exact ReachesUp.step t c p hc hp (ih p h2)

/-- The executable rank check implies the strict-increase property. -/
theorem parentRankOkB_sound (f : Forest) (rank : NodeIndex → Nat)
    (h : parentRankOkB f rank = true) :
    ∀ node ∈ f, ∀ p, node.parent_blossom = some p → rank node.index < rank p := by
  intro node hn p hp
  have hnode := List.all_eq_true.mp h node hn
  rw [hp] at hnode
  exact of_decide_eq_true hnode

/-- The executable circle check implies that every circle member is a node
whose parent blossom is the circle's owner. -/
theorem circleOkB_sound (f : Forest) (h : circleOkB f = true) :
    ∀ node ∈ f, ∀ circ tch, node.nodeClass = DualNodeClass.blossom circ tch →
      ∀ m ∈ circ, (lookupNode f m).map DualNode.parent_blossom = some (some node.index) := by
  intro node hn circ tch hcls m hm
  have hnode := List.all_eq_true.mp h node hn
  rw [hcls] at hnode
  exact eq_of_beq (List.all_eq_true.mp hnode m hm)

/-- The executable touching check implies that each recorded touching child
reaches its circle member along parent links. -/
theorem touchOkB_sound (f : Forest) (gas : Nat) (h : touchOkB f gas = true) :
    ∀ node ∈ f, ∀ circ tch, node.nodeClass = DualNodeClass.blossom circ tch →
      ∀ pr ∈ circ.zip tch, ReachesUp f pr.1 pr.2.1 ∧ ReachesUp f pr.1 pr.2.2 := by
  intro node hn circ tch hcls pr hpr
  have hnode := List.all_eq_true.mp h node hn
  rw [hcls] at hnode
  have h2 := List.all_eq_true.mp hnode pr hpr
  rw [Bool.and_eq_true] at h2
  exact ⟨reachesUpB_sound f pr.1 gas pr.2.1 h2.1, reachesUpB_sound f pr.1 gas pr.2.2 h2.2⟩

/-- Along parent links the rank can only go up, so reaching `b` from `t`
means `rank t ≤ rank b`. -/
theorem rank_le_of_reaches (f : Forest) (rank : NodeIndex → Nat)
    (Hpar : ∀ node ∈ f, ∀ p, node.parent_blossom = some p → rank node.index < rank p) :
    ∀ (b t : NodeIndex), ReachesUp f b t → rank t ≤ rank b := by
  intro b t h
  induction h with
  | refl => exact le_refl _
  | step t c p hc hp hru ih =>
    have hidx : c.index = t := lookupNode_index hc
    have hlt := Hpar c (lookupNode_mem hc) p hp
    rw [hidx] at hlt
    omega

/-- The walk from node 10 of `cycleForest` toward node 2 cycles between
nodes 10 and 11, exhausting any fuel. -/
theorem cycle_oof : ∀ n, expandGo cycleForest n 2 10 = .error .outOfFuel ∧
    expandGo cycleForest n 2 11 = .error .outOfFuel := by
  intro n
  induction n with
  | zero => exact ⟨rfl, rfl⟩
  | succ n ih =>
    constructor
    · have h : expandGo cycleForest (n + 1) 2 10 = expandGo cycleForest n 2 11 := rfl
      rw [h]
      exact ih.2
    · have h : expandGo cycleForest (n + 1) 2 11 = expandGo cycleForest n 2 10 := rfl
      rw [h]
      exact ih.1

/-- One walk iteration at node 1 of `cycleForest` fails with fuel exhaustion
as soon as the recursive expansion of the recorded touching child 10 toward
circle node 2 does. -/
theorem cycle_step (eb : NodeIndex → NodeIndex → Except ExpandErr (List (NodeIndex × NodeIndex)))
    (h : eb 2 10 = .error .outOfFuel) :
    expandStep cycleForest eb 0 1 = .error .outOfFuel := by
  simp [expandStep, lookupNode, cycleForest, pairStepsWith, expandPeerMatchingWith, h]

/-- Evaluating `expand_blossom cycleForest fuel 0 1` exhausts every fuel. -/
theorem cycle_expand_oof : ∀ fuel, expand_blossom cycleForest fuel 0 1 = .error .outOfFuel := by
  intro fuel
  cases fuel with
  | zero => rfl
  | succ n =>
    show expandGo cycleForest (n + 1) 0 1 = .error .outOfFuel
    rw [expandGo_succ, if_neg (by decide : ¬ (1 : NodeIndex) = 0)]
    exact cycle_step (expandGo cycleForest n) (cycle_oof n).1

/-- Counterexample to C6 as stated: in the finite forest `cycleForest` the
blossom node 0 is the direct parent of the touching node 1, yet
`expand_blossom 0 1` diverges (exhausts every fuel), because a recorded
touching child's parent chain cycles without reaching the circle node being
recursively expanded. -/
theorem c6_counterexample :
    ReachesUp cycleForest 0 1 ∧
    ¬ ∃ fuel, expand_blossom cycleForest fuel 0 1 ≠ .error .outOfFuel := by
  constructor
  · exact ReachesUp.step 1 ⟨1, .syndromeVertex 0, some 0⟩ 0 rfl rfl ReachesUp.refl
  · rintro ⟨fuel, hf⟩
    exact hf (cycle_expand_oof fuel)

/-- Termination of the walk on well-formed forests: by strong induction on
the rank of the target blossom (spawned recursive expansions target circle
members of strictly smaller rank) with an inner induction on the parent
chain from the touching node to the target. -/
theorem expandGo_terminates_aux (f : Forest) (rank : NodeIndex → Nat)
    (Hpar : ∀ node ∈ f, ∀ p, node.parent_blossom = some p → rank node.index < rank p)
    (Hcirc : ∀ node ∈ f, ∀ circ tch, node.nodeClass = DualNodeClass.blossom circ tch →
      ∀ m ∈ circ, (lookupNode f m).map DualNode.parent_blossom = some (some node.index))
    (Htouch : ∀ node ∈ f, ∀ circ tch, node.nodeClass = DualNodeClass.blossom circ tch →
      ∀ pr ∈ circ.zip tch, ReachesUp f pr.1 pr.2.1 ∧ ReachesUp f pr.1 pr.2.2) :
    ∀ (R : Nat) (b : NodeIndex), rank b < R → ∀ (t : NodeIndex), ReachesUp f b t →
      ∃ N, ∀ fuel, N ≤ fuel → expandGo f fuel b t ≠ .error .outOfFuel := by
  intro R
  induction R with
  | zero => intro b hb; exact absurd hb (by omega)
  | succ R ihR =>
    intro b hb t hru
    induction hru with
    | refl => exact ⟨0, fun fuel _ => by cases fuel <;> simp [expandGo]⟩
    | step t c p hc hp hru2 ih =>
      by_cases hbt : t = b
      · subst hbt
        exact ⟨0, fun fuel _ => by cases fuel <;> simp [expandGo]⟩
      · obtain ⟨N1, hN1⟩ := ih
        cases hlp : lookupNode f p with
        | none =>
          refine ⟨1, fun fuel hfl => ?_⟩
          obtain ⟨fuel2, rfl⟩ : ∃ k, fuel = k + 1 := ⟨fuel - 1, by omega⟩
          rw [expandGo_succ, if_neg hbt]
          intro hcontra
          unfold expandStep at hcontra
          split at hcontra
          · rename_i heq; rw [hc] at heq; cases heq
          · rename_i child heq
            rw [hc] at heq
            injection heq with heq
            subst heq
            split at hcontra
            · rename_i heq2; rw [hp] at heq2; cases heq2
            · rename_i p2 heq2
              rw [hp] at heq2
              injection heq2 with heq2
              subst heq2
              split at hcontra
              · simp at hcontra
              · rename_i parent2 heq3; rw [hlp] at heq3; cases heq3
        | some parent =>
          cases hcls : parent.nodeClass with
          | syndromeVertex s =>
            refine ⟨N1 + 1, fun fuel hfl => ?_⟩
            obtain ⟨fuel2, rfl⟩ : ∃ k, fuel = k + 1 := ⟨fuel - 1, by omega⟩
            rw [expandGo_succ, if_neg hbt]
            intro hcontra
            unfold expandStep at hcontra
            split at hcontra
            · rename_i heq; rw [hc] at heq; cases heq
            · rename_i child heq
              rw [hc] at heq
              injection heq with heq
              subst heq
              split at hcontra
              · rename_i heq2; rw [hp] at heq2; cases heq2
              · rename_i p2 heq2
                rw [hp] at heq2
                injection heq2 with heq2
                subst heq2
                split at hcontra
                · rename_i heq3; rw [hlp] at heq3; cases heq3
                · rename_i parent2 heq3
                  rw [hlp] at heq3
                  injection heq3 with heq3
                  subst heq3
                  split at hcontra
                  · exact hN1 fuel2 (by omega) hcontra
                  · rename_i circ2 tch2 heq4; rw [hcls] at heq4; cases heq4
          | blossom circ tch =>
            have hmem_parent : parent ∈ f := lookupNode_mem hlp
            have hpidx : parent.index = p := lookupNode_index hlp
            have hrankp : rank p ≤ rank b := rank_le_of_reaches f rank Hpar b p hru2
            have hperj : ∀ j, j < circ.length → ∃ N, ∀ fuel, N ≤ fuel →
                ∀ n1 t1, circ.get? j = some n1 → tch.get? j = some t1 →
                  expandGo f fuel n1 t1.1 ≠ .error .outOfFuel ∧
                  expandGo f fuel n1 t1.2 ≠ .error .outOfFuel := by
              intro j hj
              cases hg1 : circ.get? j with
              | none =>
                exact ⟨0, fun fuel _ n1 t1 h1 _ => by cases h1⟩
              | some m =>
                cases hg2 : tch.get? j with
                | none =>
                  exact ⟨0, fun fuel _ n1 t1 _ h2 => by cases h2⟩
                | some tp =>
                  have hmemc : m ∈ circ := List.get?_mem hg1
                  have hcircm := Hcirc parent hmem_parent circ tch hcls m hmemc
                  rw [hpidx] at hcircm
                  obtain ⟨cm, hcm, hcmpar⟩ :
                      ∃ cm, lookupNode f m = some cm ∧ cm.parent_blossom = some p := by
                    cases hcm : lookupNode f m with
                    | none => rw [hcm] at hcircm; cases hcircm
                    | some cm =>
                      rw [hcm] at hcircm
                      exact ⟨cm, rfl, by simpa using hcircm⟩
                  have hrankm : rank m < rank p := by
                    have hlt := Hpar cm (lookupNode_mem hcm) p hcmpar
                    rw [lookupNode_index hcm] at hlt
                    exact hlt
                  have hrankmR : rank m < R := by omega
                  have htpr := Htouch parent hmem_parent circ tch hcls (m, tp)
                    (get?_zip_mem circ tch j m tp hg1 hg2)
                  obtain ⟨Na, hNa⟩ := ihR m hrankmR tp.1 htpr.1
                  obtain ⟨Nb, hNb⟩ := ihR m hrankmR tp.2 htpr.2
                  refine ⟨max Na Nb, fun fuel hfl n1 t1 h1 h2 => ?_⟩
                  injection h1 with h1
                  subst h1
                  injection h2 with h2
                  subst h2
                  exact ⟨hNa fuel (le_trans (Nat.le_max_left _ _) hfl),
                    hNb fuel (le_trans (Nat.le_max_right _ _) hfl)⟩
            obtain ⟨N2, hN2⟩ := exists_uniform_bound
              (fun j fuel => ∀ n1 t1, circ.get? j = some n1 → tch.get? j = some t1 →
                expandGo f fuel n1 t1.1 ≠ .error .outOfFuel ∧
                expandGo f fuel n1 t1.2 ≠ .error .outOfFuel)
              circ.length hperj
            refine ⟨max N1 N2 + 1, fun fuel hfl => ?_⟩
            obtain ⟨fuel2, rfl⟩ : ∃ k, fuel = k + 1 := ⟨fuel - 1, by omega⟩
            have hfl2 : max N1 N2 ≤ fuel2 := by omega
            rw [expandGo_succ, if_neg hbt]
            intro hcontra
            unfold expandStep at hcontra
            split at hcontra
            · rename_i heq; rw [hc] at heq; cases heq
            · rename_i child heq
              rw [hc] at heq
              injection heq with heq
              subst heq
              split at hcontra
              · rename_i heq2; rw [hp] at heq2; cases heq2
              · rename_i p2 heq2
                rw [hp] at heq2
                injection heq2 with heq2
                subst heq2
                split at hcontra
                · rename_i heq3; rw [hlp] at heq3; cases heq3
                · rename_i parent2 heq3
                  rw [hlp] at heq3
                  injection heq3 with heq3
                  subst heq3
                  split at hcontra
                  · rename_i s2 heq4; rw [hcls] at heq4; cases heq4
                  · rename_i circ2 tch2 heq4
                    rw [hcls] at heq4
                    injection heq4 with heqa heqb
                    subst heqa
                    subst heqb
                    split at hcontra
                    · simp at hcontra
                    · rename_i idx hfind
                      split at hcontra
                      · split at hcontra
                        · rename_i e hps
                          have HH : ∀ j1 j2 n1 n2 t1 t2, circ.get? j1 = some n1 →
                              circ.get? j2 = some n2 → tch.get? j1 = some t1 →
                              tch.get? j2 = some t2 →
                              expandPeerMatchingWith (expandGo f fuel2) n1 t1.2 n2 t2.1
                                ≠ .error .outOfFuel := by
                            intro j1 j2 n1 n2 t1 t2 hj1 hj2 hj3 hj4
                            have hb1 := (hN2 fuel2 (le_trans (Nat.le_max_right _ _) hfl2)
                              j1 (lt_of_get?_eq_some hj1) n1 t1 hj1 hj3).2
                            have hb2 := (hN2 fuel2 (le_trans (Nat.le_max_right _ _) hfl2)
                              j2 (lt_of_get?_eq_some hj2) n2 t2 hj2 hj4).1
                            exact expandPeerMatchingWith_ne _ _ _ _ _ _ hb1 hb2
                          have hnoof := pairStepsWith_ne (expandPeerMatchingWith (expandGo f fuel2))
                            circ tch idx .outOfFuel (by decide) HH (circ.length / 2) 0
                          rw [hps] at hnoof
                          exact hnoof hcontra
                        · rename_i pairs hps
                          split at hcontra
                          · rename_i e2 hrest
                            have hgo := hN1 fuel2 (le_trans (Nat.le_max_left _ _) hfl2)
                            rw [hrest] at hgo
                            exact hgo hcontra
                          · simp at hcontra
                      · simp at hcontra

/-- C6 as amended: on a forest that is well-formed — parent links strictly
increase some rank (so parent chains are finite), every blossom's circle
members are children of that blossom, and every recorded touching child
reaches its circle member along parent links — `expand_blossom b t`
terminates (some fuel, and every larger one, suffices) whenever `b` is
reachable from `t` along parent links. -/
theorem c6_amended (f : Forest) (rank : NodeIndex → Nat) (b t : NodeIndex)
    (Hpar : ∀ node ∈ f, ∀ p, node.parent_blossom = some p → rank node.index < rank p)
    (Hcirc : ∀ node ∈ f, ∀ circ tch, node.nodeClass = DualNodeClass.blossom circ tch →
      ∀ m ∈ circ, (lookupNode f m).map DualNode.parent_blossom = some (some node.index))
    (Htouch : ∀ node ∈ f, ∀ circ tch, node.nodeClass = DualNodeClass.blossom circ tch →
      ∀ pr ∈ circ.zip tch, ReachesUp f pr.1 pr.2.1 ∧ ReachesUp f pr.1 pr.2.2)
    (hru : ReachesUp f b t) :
    ∃ N, ∀ fuel, N ≤ fuel → expand_blossom f fuel b t ≠ .error .outOfFuel :=
  expandGo_terminates_aux f rank Hpar Hcirc Htouch (rank b + 1) b (by omega) t hru

/-- Witness for C6 (amended) on the concrete well-formed one-level blossom. -/
theorem c6_witness :
    ∃ N, ∀ fuel, N ≤ fuel →
      expand_blossom exampleBlossomForest fuel 0 1 ≠ .error .outOfFuel :=
  c6_amended exampleBlossomForest exampleRank 0 1
    (parentRankOkB_sound exampleBlossomForest exampleRank rfl)
    (circleOkB_sound exampleBlossomForest rfl)
    (touchOkB_sound exampleBlossomForest 4 rfl)
    (reachesUpB_sound exampleBlossomForest 0 4 1 rfl)

end FusionBlossom
